import Mathlib

set_option maxRecDepth 16384

/-!
Verification of the docbrown repository-analysis core against its
specification.  The Go sources are shallowly embedded as executable Lean
definitions:

* package `cache` (cache manager: `IsStale`, `Update`, `hashFiles`,
  `hashComponent`);
* package `analyzer` (`Scanner.Scan`, `Detector.DetectComponents` and its
  three strategies, `MetadataExtractor.ExtractDependencies` and the
  per-language manifest parsers).

Modelling conventions, used consistently below:

* File paths handled by the detector/extractor are modelled as lists of
  path segments (`List String`); `renderPath` renders them back to the
  Go string form, with `[]` rendering as ".". The detector is modelled
  with `rootPath = "."` (the process working directory is the repository
  root), which is how the analyzer is invoked on a repository.
* A repository inventory is a flat list of `(path, content)` pairs;
  directories are the proper prefixes of file paths. Directory/glob
  enumeration order is modelled by inventory order (Go sorts directory
  listings; no claim below depends on enumeration order).
* The cache works on plain path strings, so its file store is a list of
  `(path string, content)` pairs; a path absent from the store models a
  file that cannot be opened. File bytes are modelled as characters.
* SHA-256 is modelled by its input transcript: `hashFiles` returns the
  exact character stream the Go code feeds to the hash, and digest
  comparison compares transcripts. This treats SHA-256 (and its hex
  encoding) as injective, which is the intent of a content digest;
  every digest (in)equality proved below is an (in)equality of hash
  inputs.
* `time.Time`/`time.Duration` are modelled as `Nat`; `time.Since t` at
  instant `now` is `now - t`.
* Go `map` types are modelled as association lists with overwriting
  insertion; Go map iteration order is unspecified, the model iterates
  in insertion order (no claim depends on it).
-/

namespace DocBrown

/-! ### Shared string helpers (models of Go `strings`/`path/filepath` calls) -/

/-- Boolean prefix test on lists (used both for path-segment prefixes and,
via `strPrefix`, for string prefixes). -/
def listIsPre [DecidableEq α] : List α → List α → Bool
  | [], _ => true
  | _ :: _, [] => false
  | a :: as_, b :: bs => if a = b then listIsPre as_ bs else false

/-- String prefix relation on character sequences. -/
def strPrefix (s t : String) : Bool :=
  listIsPre s.toList t.toList

/-- Renders a segment path to its Go string form, without the `"."` special
case (so `[] ↦ ""`). -/
def renderSegs : List String → List Char
  | [] => []
  | [s] => s.toList
  | s :: rest => s.toList ++ '/' :: renderSegs rest

/-- Renders a segment path the way the Go code spells it: the repository
root (empty segment list) is `"."`, everything else is `/`-joined. -/
def renderPath (p : List String) : String :=
  if p = [] then "." else (renderSegs p).asString

/-- `strings.Contains` on character lists. -/
def containsSub (s sub : List Char) : Bool :=
  if listIsPre sub s then true
  else
    match s with
    | [] => false
    | _ :: t => containsSub t sub

/-- `strings.Contains`. -/
def strContains (s sub : String) : Bool :=
  containsSub s.toList sub.toList

/-- `strings.HasPrefix`. -/
def startsWithStr (s p : String) : Bool :=
  listIsPre p.toList s.toList

/-- `strings.HasSuffix`. -/
def endsWithStr (s p : String) : Bool :=
  listIsPre p.toList.reverse s.toList.reverse

/-- `strings.ToLower` (character-wise). -/
def strToLower (s : String) : String :=
  (s.toList.map Char.toLower).asString

/-- `strings.TrimSpace`. -/
def trimStr (s : String) : String :=
  (((s.toList.dropWhile Char.isWhitespace).reverse.dropWhile
      Char.isWhitespace).reverse).asString

/-- Splitting worker shared by `splitOnCh` and `fieldsOf`. -/
def splitPredAux (p : Char → Bool) : List Char → List Char → List String
  | [], acc => [acc.reverse.asString]
  | c :: rest, acc =>
    if p c then acc.reverse.asString :: splitPredAux p rest []
    else splitPredAux p rest (c :: acc)

/-- `strings.Split` with a one-character separator (the only separators
the code uses: newline, `=`, `/`). -/
def splitOnCh (sep : Char) (s : String) : List String :=
  splitPredAux (fun c => c == sep) s.toList []

/-- `strings.Fields`: split on whitespace, dropping empty fields. -/
def fieldsOf (s : String) : List String :=
  (splitPredAux Char.isWhitespace s.toList []).filter (fun x => x != "")

/-- `strings.TrimPrefix`. -/
def trimPre (s p : String) : String :=
  if startsWithStr s p then (s.toList.drop p.toList.length).asString else s

/-- `strings.Trim(s, cutset)`: removes leading and trailing characters
belonging to `cut`. -/
def trimCutset (cut : List Char) (s : String) : String :=
  (((s.toList.dropWhile (fun c => cut.contains c)).reverse.dropWhile
      (fun c => cut.contains c)).reverse).asString

/-- Suffix of a file name starting at its last dot, or `none`
(`path/filepath.Ext` without the lowercasing). -/
def lastExt : List Char → Option (List Char)
  | [] => none
  | c :: rest =>
    match lastExt rest with
    | some e => some e
    | none => if c = '.' then some (c :: rest) else none

/-- `strings.ToLower(filepath.Ext(name))` as used by the scanner and the
detector, applied to a path's base name. -/
def extOf (name : String) : String :=
  (((lastExt name.toList).getD []).map Char.toLower).asString

/-- `path/filepath.Match` restricted to the metacharacters the code uses:
`*` (any run of non-separator characters) and `?` (one non-separator
character); other characters match literally. Character classes never
occur in the repository's patterns and are treated as literals. The fuel
only bounds the recursion (every step shortens pattern or name) and
every use supplies enough of it. -/
def matchPatF : Nat → List Char → List Char → Bool
  | 0, _, _ => false
  | _ + 1, [], [] => true
  | _ + 1, [], _ :: _ => false
  | fuel + 1, '*' :: ps, name =>
    matchPatF fuel ps name ||
      (match name with
       | [] => false
       | c :: ns => if c = '/' then false else matchPatF fuel ('*' :: ps) ns)
  | _ + 1, _ :: _, [] => false
  | fuel + 1, p :: ps, c :: cs =>
    if p = '?' then (if c = '/' then false else matchPatF fuel ps cs)
    else if p = c then matchPatF fuel ps cs else false

/-- `path/filepath.Match` (see `matchPatF`). -/
def matchPat (pat name : List Char) : Bool :=
  matchPatF (pat.length + name.length + 1) pat name

/-- `filepath.Base` of a segment path (`"."` for the repository root). -/
def baseOf (p : List String) : String :=
  (p.getLast?).getD "."

/-! ### Cache manager (package `cache`) -/

/-- File store seen by the cache: path string to content; a missing entry
models a file `os.Open` fails on. -/
abbrev CFs := List (String × String)

/-- Content lookup in the cache's file store. -/
def CFs.read : CFs → String → Option String
  | [], _ => none
  | (k, v) :: rest, p => if k = p then some v else CFs.read rest p

/-- One file's contribution to the digest transcript: the path's
characters followed by the file content (nothing when the file cannot be
opened), exactly as `Manager.hashFiles` writes them into the hash. -/
def fileSeg (fs : CFs) (f : String) : List Char :=
  f.toList ++ (match CFs.read fs f with
               | some c => c.toList
               | none => [])

/-- `Manager.hashFiles`: digest (transcript) over the path-then-content
stream of the file list, in list order. -/
def hashFiles (fs : CFs) (files : List String) : List Char :=
  (files.map (fileSeg fs)).flatten

/-- `Manager.hashComponent`: component name followed by the files digest. -/
def hashComponent (fs : CFs) (name : String) (files : List String) : List Char :=
  name.toList ++ hashFiles fs files

/-- `cache.ComponentCache` (the `yaml` persistence tags are irrelevant to
the in-memory behaviour modelled here). -/
structure ComponentCache where
  hash : List Char
  filesHash : List Char
  lastGenerated : Nat
  files : List String
deriving DecidableEq

/-- Lookup in the `Components` map (modelled as an association list). -/
def lookupComp : List (String × ComponentCache) → String → Option ComponentCache
  | [], _ => none
  | (k, v) :: rest, name => if k = name then some v else lookupComp rest name

/-- Overwriting insertion into the `Components` map. -/
def insertComp : List (String × ComponentCache) → String → ComponentCache →
    List (String × ComponentCache)
  | [], name, e => [(name, e)]
  | (k, v) :: rest, name, e =>
    if k = name then (k, e) :: rest else (k, v) :: insertComp rest name e

/-- `cache.Manager` (persistence path/version/last-run omitted: `Load`,
`Save` and `Clear` are not modelled). -/
structure Manager where
  components : List (String × ComponentCache)
  enabled : Bool
  ttl : Nat
deriving DecidableEq

/-- `Manager.IsStale`, with the wall clock and the file store explicit. -/
def Manager.isStale (m : Manager) (name : String) (files : List String)
    (now : Nat) (fs : CFs) : Bool :=
  if !m.enabled then true
  else
    match lookupComp m.components name with
    | none => true
    | some cached =>
      if now - cached.lastGenerated > m.ttl then true
      else if hashFiles fs files ≠ cached.filesHash then true
      else false

/-- `Manager.Update`, with the wall clock and the file store explicit. -/
def Manager.update (m : Manager) (name : String) (files : List String)
    (now : Nat) (fs : CFs) : Manager :=
  if !m.enabled then m
  else
    { m with
      components := insertComp m.components name
        { hash := hashComponent fs name files
          filesHash := hashFiles fs files
          lastGenerated := now
          files := files } }

/-! ### Repository inventory (segment paths; detector/extractor view) -/

/-- Repository inventory: regular files with their contents. -/
abbrev Repo := List (List String × String)

/-- `os.ReadFile` relative to the repository root. -/
def readFile : Repo → List String → Option String
  | [], _ => none
  | (k, v) :: rest, p => if k = p then some v else readFile rest p

/-- Paths of the inventory's regular files. -/
def filePaths (repo : Repo) : List (List String) := repo.map Prod.fst

/-- A regular file exists at `p`. -/
def isFileAt (repo : Repo) (p : List String) : Bool :=
  (filePaths repo).any (fun f => f == p)

/-- A directory exists at `p` (some file lies strictly below it). -/
def isDirAt (repo : Repo) (p : List String) : Bool :=
  (filePaths repo).any (fun f => listIsPre p f && !(f == p))

/-- All existing entries (files and the directories above them): the
nonempty prefixes of the inventory's file paths, first occurrence first. -/
def allEntries (repo : Repo) : List (List String) :=
  ((filePaths repo).flatMap
    (fun f => (List.range f.length).map (fun i => f.take (i + 1)))).dedup

/-- Entries directly below `dir`. -/
def childrenOf (repo : Repo) (dir : List String) : List (List String) :=
  (allEntries repo).filter (fun p => p.length == dir.length + 1 && listIsPre dir p)

/-- `os.DirEntry` as consumed by the C# extractor. -/
structure DirEntry where
  name : String
  isDir : Bool
deriving DecidableEq

/-- `os.ReadDir`: fails unless the path is an existing directory (the
repository root `[]` always exists). -/
def readDirOpt (repo : Repo) (path : List String) : Option (List DirEntry) :=
  if path = [] ∨ isDirAt repo path = true then
    some ((childrenOf repo path).map (fun p =>
      { name := (p.getLast?).getD "", isDir := isDirAt repo p }))
  else none

/-! ### Data model (`config.Component` and friends) -/

/-- `config.Dependency`. -/
structure Dependency where
  name : String
  version : String
  type : String
deriving DecidableEq

/-- `config.Endpoint`. -/
structure Endpoint where
  method : String
  path : String
  description : String
deriving DecidableEq

/-- `config.Component` (`EntryPoint` retained for structural fidelity;
endpoint extraction is presentational and not modelled — no claim
touches it). -/
structure Component where
  name : String := ""
  type : String := ""
  language : String := ""
  path : List String := []
  files : List (List String) := []
  description : String := ""
  hasTests : Bool := false
  dependencies : List Dependency := []
  endpoints : List Endpoint := []
  entryPoint : String := ""
deriving DecidableEq

/-! ### JSON (model of the `encoding/json` syntax consumed for
`package.json`) -/

/-- JSON value tree. -/
inductive Json where
  | str (s : String)
  | num (raw : String)
  | bool (b : Bool)
  | nul
  | arr (xs : List Json)
  | obj (kvs : List (String × Json))

/-- JSON insignificant whitespace. -/
def skipWs (cs : List Char) : List Char :=
  cs.dropWhile (fun c => c == ' ' || c == '\t' || c == '\n' || c == '\r')

/-- Hexadecimal digit value. -/
def hexVal (c : Char) : Option Nat :=
  if '0' ≤ c ∧ c ≤ '9' then some (c.toNat - '0'.toNat)
  else if 'a' ≤ c ∧ c ≤ 'f' then some (c.toNat - 'a'.toNat + 10)
  else if 'A' ≤ c ∧ c ≤ 'F' then some (c.toNat - 'A'.toNat + 10)
  else none

/-- Single-character JSON escapes. -/
def escChar : Char → Option Char
  | '"' => some '"'
  | '\\' => some '\\'
  | '/' => some '/'
  | 'b' => some (Char.ofNat 8)
  | 'f' => some (Char.ofNat 12)
  | 'n' => some '\n'
  | 'r' => some '\r'
  | 't' => some '\t'
  | _ => none

/-- JSON string body after the opening quote; invalid escapes are
errors. -/
def parseStrBody : List Char → List Char → Option (String × List Char)
  | [], _ => none
  | '"' :: rest, acc => some (acc.reverse.asString, rest)
  | '\\' :: rest, acc =>
    (match rest with
     | 'u' :: h1 :: h2 :: h3 :: h4 :: rest2 =>
       match hexVal h1, hexVal h2, hexVal h3, hexVal h4 with
       | some a, some b, some c, some d =>
         parseStrBody rest2 (Char.ofNat (((a * 16 + b) * 16 + c) * 16 + d) :: acc)
       | _, _, _, _ => none
     | e :: rest2 =>
       match escChar e with
       | some c => parseStrBody rest2 (c :: acc)
       | none => none
     | [] => none)
  | c :: rest, acc => parseStrBody rest (c :: acc)

/-- JSON number token: optional sign, digits, optional fraction and
exponent. Syntactic corner cases Go rejects (leading zeros, empty
fraction) are accepted; numbers are only ever skipped values and no
claim depends on them. -/
def parseNum (cs : List Char) : Option (String × List Char) :=
  let sr := match cs with
    | '-' :: r => (['-'], r)
    | _ => (([] : List Char), cs)
  let ip := sr.2.takeWhile Char.isDigit
  if ip = [] then none
  else
    let r1 := sr.2.drop ip.length
    let fp := match r1 with
      | '.' :: r => '.' :: r.takeWhile Char.isDigit
      | _ => []
    let r2 := r1.drop fp.length
    let ep := match r2 with
      | e :: r =>
        if e == 'e' || e == 'E' then
          let s2 := match r with
            | '+' :: t => (['+'], t)
            | '-' :: t => (['-'], t)
            | _ => (([] : List Char), r)
          e :: (s2.1 ++ s2.2.takeWhile Char.isDigit)
        else []
      | [] => []
    let r3 := r2.drop ep.length
    some ((sr.1 ++ ip ++ fp ++ ep).asString, r3)

mutual
/-- JSON value parser; the fuel bounds nesting depth and every use below
supplies more fuel than there are input characters. -/
def parseValue : Nat → List Char → Option (Json × List Char)
  | 0, _ => none
  | fuel + 1, cs =>
    match skipWs cs with
    | '"' :: rest => (parseStrBody rest []).map (fun r => (Json.str r.1, r.2))
    | '{' :: rest => parseObjItems fuel rest [] true
    | '[' :: rest => parseArrItems fuel rest [] true
    | 't' :: 'r' :: 'u' :: 'e' :: rest => some (Json.bool true, rest)
    | 'f' :: 'a' :: 'l' :: 's' :: 'e' :: rest => some (Json.bool false, rest)
    | 'n' :: 'u' :: 'l' :: 'l' :: rest => some (Json.nul, rest)
    | other => (parseNum other).map (fun r => (Json.num r.1, r.2))

/-- Members of a JSON object, after its opening brace. -/
def parseObjItems : Nat → List Char → List (String × Json) → Bool →
    Option (Json × List Char)
  | 0, _, _, _ => none
  | fuel + 1, cs, acc, first =>
    match skipWs cs with
    | '}' :: rest => if first then some (Json.obj acc.reverse, rest) else none
    | '"' :: rest =>
      (match parseStrBody rest [] with
       | none => none
       | some (key, r1) =>
         match skipWs r1 with
         | ':' :: r2 =>
           (match parseValue fuel r2 with
            | none => none
            | some (v, r3) =>
              match skipWs r3 with
              | ',' :: r4 => parseObjItems fuel r4 ((key, v) :: acc) false
              | '}' :: r4 => some (Json.obj ((key, v) :: acc).reverse, r4)
              | _ => none)
         | _ => none)
    | _ => none

/-- Members of a JSON array, after its opening bracket. -/
def parseArrItems : Nat → List Char → List Json → Bool →
    Option (Json × List Char)
  | 0, _, _, _ => none
  | fuel + 1, cs, acc, first =>
    match skipWs cs with
    | ']' :: rest => if first then some (Json.arr acc.reverse, rest) else none
    | other =>
      match parseValue fuel other with
      | none => none
      | some (v, r1) =>
        match skipWs r1 with
        | ',' :: r2 => parseArrItems fuel r2 (v :: acc) false
        | ']' :: r2 => some (Json.arr (v :: acc).reverse, r2)
        | _ => none
end

/-- Go-map semantics for string maps: a duplicate key overwrites the
earlier value. -/
def insertKV (m : List (String × String)) (k v : String) : List (String × String) :=
  match m with
  | [] => [(k, v)]
  | (k0, v0) :: rest =>
    if k0 = k then (k0, v) :: rest else (k0, v0) :: insertKV rest k v

/-- Decode a JSON value into `map[string]string` the way `encoding/json`
does for a map-typed struct field: absent or `null` gives the empty map,
an object of string values gives the map, anything else is an unmarshal
error. -/
def jsonToStrMap : Option Json → Option (List (String × String))
  | none => some []
  | some Json.nul => some []
  | some (Json.obj kvs) =>
    kvs.foldl (fun acc kv =>
      match acc, kv.2 with
      | some m, Json.str s => some (insertKV m kv.1 s)
      | _, _ => none) (some [])
  | some _ => none

/-- Last binding of a key in a JSON object (later duplicates win). -/
def lastKey (kvs : List (String × Json)) (k : String) : Option Json :=
  kvs.foldl (fun acc kv => if kv.1 = k then some kv.2 else acc) none

/-- `json.Unmarshal` of `package.json` into
`struct Dependencies, DevDependencies map[string]string`; `none` models
an unmarshal error (malformed JSON, non-object document, wrongly typed
fields). Field names are matched exactly; the case-insensitive fallback
of `encoding/json` is not modelled, no claim depends on it. -/
def parsePackageJson (content : String) :
    Option (List (String × String) × List (String × String)) :=
  match parseValue (content.toList.length + 1) content.toList with
  | none => none
  | some (v, rest) =>
    if skipWs rest = [] then
      match v with
      | Json.obj kvs =>
        (match jsonToStrMap (lastKey kvs "dependencies"),
               jsonToStrMap (lastKey kvs "devDependencies") with
         | some ds, some dvs => some (ds, dvs)
         | _, _ => none)
      | _ => none
    else none

/-! ### Metadata extractor (`MetadataExtractor`, package `analyzer`) -/

/-- One step of the `go.mod` require-line loop. -/
def goModStep (st : Bool × List Dependency) (rawLine : String) :
    Bool × List Dependency :=
  let line := trimStr rawLine
  let inRequire := st.1
  let deps := st.2
  if startsWithStr line "require (" then (true, deps)
  else if inRequire && line == ")" then (false, deps)
  else if startsWithStr line "require " || inRequire then
    match fieldsOf (trimPre line "require ") with
    | name :: version :: _ =>
      (inRequire, deps ++ [{ name := name, version := version, type := "external" }])
    | _ => (inRequire, deps)
  else (inRequire, deps)

/-- `MetadataExtractor.extractGoDependencies`. -/
def extractGoDependencies (repo : Repo) (path : List String) : List Dependency :=
  match readFile repo (path ++ ["go.mod"]) with
  | none => []
  | some content => ((splitOnCh '\n' content).foldl goModStep (false, [])).2

/-- Characters of the requirements-line name group `[a-zA-Z0-9_-]`. -/
def isReqNameChar (c : Char) : Bool :=
  c.isAlphanum || c == '_' || c == '-'

/-- Characters of the version-operator group `[>=<~!]`. -/
def isReqOpChar (c : Char) : Bool :=
  c == '>' || c == '=' || c == '<' || c == '~' || c == '!'

/-- `FindStringSubmatch` of the anchored greedy requirements pattern,
returning the name group and the remainder group. -/
def reqLineMatch (line : String) : Option (String × String) :=
  let cs := line.toList
  let nm := cs.takeWhile isReqNameChar
  if nm = [] then none
  else
    let rest := cs.drop nm.length
    let ops := rest.takeWhile isReqOpChar
    some (nm.asString, (rest.drop ops.length).asString)

/-- One step of the `requirements.txt` line loop. -/
def reqStep (deps : List Dependency) (rawLine : String) : List Dependency :=
  let line := trimStr rawLine
  if line == "" || startsWithStr line "#" then deps
  else
    match reqLineMatch line with
    | some r => deps ++ [{ name := r.1, version := r.2, type := "external" }]
    | none => deps

/-- One step of the `pyproject.toml` dependency-section loop. -/
def pyprojectStep (st : Bool × List Dependency) (rawLine : String) :
    Bool × List Dependency :=
  let line := trimStr rawLine
  let inDeps := st.1
  let deps := st.2
  if strContains line "[tool.poetry.dependencies]" ||
      strContains line "[project.dependencies]" then (true, deps)
  else if inDeps && startsWithStr line "[" then (false, deps)
  else if inDeps && strContains line "=" then
    match splitOnCh '=' line with
    | p0 :: p1 :: _ =>
      (inDeps, deps ++ [{ name := trimStr p0,
                          version := trimCutset ['"', '\''] (trimStr p1),
                          type := "external" }])
    | _ => (inDeps, deps)
  else (inDeps, deps)

/-- `MetadataExtractor.extractPythonDependencies`: `requirements.txt`
first, falling back to `pyproject.toml`. -/
def extractPythonDependencies (repo : Repo) (path : List String) :
    List Dependency :=
  match readFile repo (path ++ ["requirements.txt"]) with
  | some content => (splitOnCh '\n' content).foldl reqStep []
  | none =>
    match readFile repo (path ++ ["pyproject.toml"]) with
    | none => []
    | some content => ((splitOnCh '\n' content).foldl pyprojectStep (false, [])).2

/-- `MetadataExtractor.extractNodeDependencies`: structured parse of
`package.json`; dev-dependencies are intentionally not included. -/
def extractNodeDependencies (repo : Repo) (path : List String) :
    List Dependency :=
  match readFile repo (path ++ ["package.json"]) with
  | none => []
  | some content =>
    match parsePackageJson content with
    | none => []
    | some pkg =>
      pkg.1.map (fun kv => { name := kv.1, version := kv.2, type := "external" })

/-- One step of the `Cargo.toml` dependency-section loop. -/
def cargoStep (st : Bool × List Dependency) (rawLine : String) :
    Bool × List Dependency :=
  let line := trimStr rawLine
  let inDeps := st.1
  let deps := st.2
  if startsWithStr line "[dependencies]" then (true, deps)
  else if inDeps && startsWithStr line "[" then (false, deps)
  else if inDeps && strContains line "=" then
    match splitOnCh '=' line with
    | p0 :: p1 :: _ =>
      (inDeps, deps ++ [{ name := trimStr p0,
                          version := trimCutset ['"', '\''] (trimStr p1),
                          type := "external" }])
    | _ => (inDeps, deps)
  else (inDeps, deps)

/-- `MetadataExtractor.extractRustDependencies`. -/
def extractRustDependencies (repo : Repo) (path : List String) :
    List Dependency :=
  match readFile repo (path ++ ["Cargo.toml"]) with
  | none => []
  | some content => ((splitOnCh '\n' content).foldl cargoStep (false, [])).2

/-- Drops a literal token, or fails. -/
def dropLit (lit cs : List Char) : Option (List Char) :=
  if listIsPre lit cs then some (cs.drop lit.length) else none

/-- One attempted match of the regex `<tag>([^<]+)</tag>` at the head of
`cs`: the capture is the maximal nonempty run of characters other than
`<` between the literal open and close tags. -/
def tagAt (tag : String) (cs : List Char) : Option (String × List Char) :=
  match dropLit ('<' :: tag.toList ++ ['>']) cs with
  | none => none
  | some r =>
    let body := r.takeWhile (fun c => c != '<')
    if body = [] then none
    else
      match dropLit ('<' :: '/' :: (tag.toList ++ ['>'])) (r.drop body.length) with
      | none => none
      | some after => some (body.asString, after)

/-- `FindAllStringSubmatch` of `<tag>([^<]+)</tag>`: leftmost matches,
resuming after each match; the fuel bounds the scan position and every
use supplies the input length. -/
def tagScan (tag : String) : Nat → List Char → List String
  | 0, _ => []
  | _ + 1, [] => []
  | fuel + 1, c :: rest =>
    match tagAt tag (c :: rest) with
    | some (s, after) => s :: tagScan tag fuel after
    | none => tagScan tag fuel rest

/-- All captures of `<tag>([^<]+)</tag>` over a document. -/
def tagCaptures (tag : String) (content : String) : List String :=
  tagScan tag content.toList.length content.toList

/-- The positional pairing loop of `extractJavaDependencies`: the i-th
groupId with the i-th artifactId, and the i-th version when present. -/
def pomPairs : List String → List String → List String → List Dependency
  | g :: gs, a :: arts, vs =>
    { name := g ++ ":" ++ a, version := (vs.head?).getD "", type := "external" }
      :: pomPairs gs arts vs.tail
  | _, _, _ => []

/-- One attempted match of `['"]([^:]+):([^:]+):([^'"]+)['"]` whose
opening quote was just consumed. -/
def gradleAt (cs : List Char) : Option (String × String × String) :=
  let g1 := cs.takeWhile (fun c => c != ':')
  if g1 = [] then none
  else
    match cs.drop g1.length with
    | ':' :: r2 =>
      let g2 := r2.takeWhile (fun c => c != ':')
      if g2 = [] then none
      else
        (match r2.drop g2.length with
         | ':' :: r4 =>
           let g3 := r4.takeWhile (fun c => c != '\'' && c != '"')
           if g3 = [] then none
           else
             (match r4.drop g3.length with
              | q :: _ =>
                if q == '\'' || q == '"' then
                  some (g1.asString, g2.asString, g3.asString)
                else none
              | [] => none)
         | _ => none)
    | _ => none

/-- `FindStringSubmatch` of the gradle coordinate regex: leftmost match
in the line. -/
def gradleMatch : List Char → Option (String × String × String)
  | [] => none
  | c :: rest =>
    if c == '\'' || c == '"' then
      match gradleAt rest with
      | some r => some r
      | none => gradleMatch rest
    else gradleMatch rest

/-- One step of the `build.gradle` line loop. -/
def gradleStep (deps : List Dependency) (rawLine : String) : List Dependency :=
  let line := trimStr rawLine
  if strContains line "implementation" || strContains line "compile" then
    match gradleMatch line.toList with
    | some r =>
      deps ++ [{ name := r.1 ++ ":" ++ r.2.1, version := r.2.2, type := "external" }]
    | none => deps
  else deps

/-- `MetadataExtractor.extractJavaDependencies`: `pom.xml` (positional
tag pairing) first, falling back to `build.gradle`. -/
def extractJavaDependencies (repo : Repo) (path : List String) :
    List Dependency :=
  match readFile repo (path ++ ["pom.xml"]) with
  | some content =>
    pomPairs (tagCaptures "groupId" content) (tagCaptures "artifactId" content)
      (tagCaptures "version" content)
  | none =>
    match readFile repo (path ++ ["build.gradle"]) with
    | none => []
    | some content => (splitOnCh '\n' content).foldl gradleStep []

/-- Tail of the gem regex after the closing quote of the name:
the optional comma and optionally quoted version group. -/
def gemVersionOf (cs : List Char) : String :=
  let r1 := cs.dropWhile Char.isWhitespace
  let r2 := match r1 with
    | ',' :: t => t
    | _ => r1
  let r3 := r2.dropWhile Char.isWhitespace
  let r4 := match r3 with
    | q :: t => if q == '\'' || q == '"' then t else r3
    | [] => r3
  (r4.takeWhile (fun c => c != '\'' && c != '"')).asString

/-- One attempted match of the gem regex at the head of `cs`. -/
def gemAt (cs : List Char) : Option (String × String) :=
  match dropLit ['g', 'e', 'm'] cs with
  | none => none
  | some r0 =>
    let ws := r0.takeWhile Char.isWhitespace
    if ws = [] then none
    else
      match r0.drop ws.length with
      | q :: r1 =>
        if q == '\'' || q == '"' then
          let nm := r1.takeWhile (fun c => c != '\'' && c != '"')
          if nm = [] then none
          else
            (match r1.drop nm.length with
             | q2 :: r2 =>
               if q2 == '\'' || q2 == '"' then some (nm.asString, gemVersionOf r2)
               else none
             | [] => none)
        else none
      | [] => none

/-- `FindStringSubmatch` of the gem regex: leftmost match in the line. -/
def gemMatch : List Char → Option (String × String)
  | [] => none
  | c :: rest =>
    match gemAt (c :: rest) with
    | some r => some r
    | none => gemMatch rest

/-- One step of the `Gemfile` line loop. -/
def gemStep (deps : List Dependency) (rawLine : String) : List Dependency :=
  let line := trimStr rawLine
  if startsWithStr line "gem " then
    match gemMatch line.toList with
    | some r => deps ++ [{ name := r.1, version := r.2, type := "external" }]
    | none => deps
  else deps

/-- `MetadataExtractor.extractRubyDependencies`. -/
def extractRubyDependencies (repo : Repo) (path : List String) :
    List Dependency :=
  match readFile repo (path ++ ["Gemfile"]) with
  | none => []
  | some content => (splitOnCh '\n' content).foldl gemStep []

/-- One attempted match of the PackageReference regex at the head of
`cs`. -/
def csprojAt (cs : List Char) : Option (String × String × List Char) :=
  match dropLit "<PackageReference".toList cs with
  | none => none
  | some r0 =>
    let ws := r0.takeWhile Char.isWhitespace
    if ws = [] then none
    else
      match dropLit "Include=\"".toList (r0.drop ws.length) with
      | none => none
      | some r1 =>
        let nm := r1.takeWhile (fun c => c != '"')
        if nm = [] then none
        else
          match r1.drop nm.length with
          | '"' :: r2 =>
            let ws2 := r2.takeWhile Char.isWhitespace
            if ws2 = [] then none
            else
              (match dropLit "Version=\"".toList (r2.drop ws2.length) with
               | none => none
               | some r3 =>
                 let ver := r3.takeWhile (fun c => c != '"')
                 if ver = [] then none
                 else
                   match r3.drop ver.length with
                   | '"' :: r4 => some (nm.asString, ver.asString, r4)
                   | _ => none)
          | _ => none

/-- `FindAllStringSubmatch` of the PackageReference regex: leftmost
matches, resuming after each match. -/
def csprojScan : Nat → List Char → List (String × String)
  | 0, _ => []
  | _ + 1, [] => []
  | fuel + 1, c :: rest =>
    match csprojAt (c :: rest) with
    | some r => (r.1, r.2.1) :: csprojScan fuel r.2.2
    | none => csprojScan fuel rest

/-- All PackageReference (name, version) pairs of a `.csproj` document. -/
def csprojRefs (content : String) : List (String × String) :=
  csprojScan content.toList.length content.toList

/-- `MetadataExtractor.extractCSharpDependencies`: scans every `.csproj`
file directly below the component path. -/
def extractCSharpDependencies (repo : Repo) (path : List String) :
    List Dependency :=
  match readDirOpt repo path with
  | none => []
  | some entries =>
    entries.foldl (fun deps e =>
      if !e.isDir && endsWithStr e.name ".csproj" then
        match readFile repo (path ++ [e.name]) with
        | none => deps
        | some content =>
          deps ++ (csprojRefs content).map (fun r =>
            { name := r.1, version := r.2, type := "external" })
      else deps) []

/-- `MetadataExtractor.ExtractDependencies`: per-language dispatch; an
unsupported language yields the empty list. -/
def ExtractDependencies (repo : Repo) (c : Component) : List Dependency :=
  if c.language = "go" then extractGoDependencies repo c.path
  else if c.language = "python" then extractPythonDependencies repo c.path
  else if c.language = "javascript" ∨ c.language = "typescript" then
    extractNodeDependencies repo c.path
  else if c.language = "rust" then extractRustDependencies repo c.path
  else if c.language = "java" then extractJavaDependencies repo c.path
  else if c.language = "ruby" then extractRubyDependencies repo c.path
  else if c.language = "csharp" then extractCSharpDependencies repo c.path
  else []

/-! ### Component detector (`Detector`, package `analyzer`).
The detector is modelled with `rootPath = "."`, i.e. segment paths are
repository-relative and the repository root is `[]`. -/

/-- Per-language test-file suffix conventions. -/
def testSuffixes : List String :=
  ["_test.go", "_test.py", ".test.js", ".test.ts", ".spec.js", ".spec.ts",
   "Test.java"]

/-- `filepath.Base` of a rendered path string. -/
def baseNameStr (s : String) : String :=
  (((splitOnCh '/' s)).getLast?).getD ""

/-- `isTestFile`: test suffix on the base name, or a `test`/`tests` path
segment. -/
def isTestFile (path : String) : Bool :=
  testSuffixes.any (fun suf => endsWithStr (baseNameStr path) suf) ||
  strContains path "/test/" || strContains path "/tests/"

/-- A segment pattern matches a segment path elementwise. -/
def globMatch (pat p : List String) : Bool :=
  pat.length == p.length &&
  (List.zip pat p).all (fun z => matchPat z.1.toList z.2.toList)

/-- `filepath.Glob`: the existing entries matching the pattern. -/
def glob (repo : Repo) (pat : List String) : List (List String) :=
  (allEntries repo).filter (globMatch pat)

/-- `Detector.fileExists`: `os.Stat` succeeds (file or directory). -/
def fileExistsAt (repo : Repo) (p : List String) : Bool :=
  isFileAt repo p || isDirAt repo p

/-- `Detector.dirHasFile`: the glob of `dir/pattern` is nonempty. -/
def dirHasFile (repo : Repo) (dir : List String) (pat : String) : Bool :=
  !(glob repo (dir ++ [pat])).isEmpty

/-- `Detector.dirContains`: some directory entry's lowercased name
contains the substring. -/
def dirContains (repo : Repo) (dir : List String) (sub : String) : Bool :=
  (childrenOf repo dir).any (fun p =>
    strContains (strToLower ((p.getLast?).getD "")) sub)

/-- `Detector.analyzeDirectory`: language by first matching source glob,
kind by Dockerfile / frontend marker / default. Never fails. -/
def analyzeDirectory (repo : Repo) (dir : List String) : Component :=
  let lang :=
    if dirHasFile repo dir "*.go" then "go"
    else if dirHasFile repo dir "*.py" then "python"
    else if dirHasFile repo dir "*.ts" || dirHasFile repo dir "*.js" then "typescript"
    else if dirHasFile repo dir "*.rs" then "rust"
    else if dirHasFile repo dir "*.java" then "java"
    else if dirHasFile repo dir "*.rb" then "ruby"
    else if dirHasFile repo dir "*.cs" then "csharp"
    else ""
  let ty :=
    if dirHasFile repo dir "Dockerfile" then "service"
    else if dirHasFile repo dir "package.json" then
      (if dirContains repo dir "react" || dirContains repo dir "vue" ||
          dirContains repo dir "angular" then "frontend" else "service")
    else "library"
  { path := dir, name := baseOf dir, language := lang, type := ty }

/-- The monorepo parent-directory patterns. -/
def monorepoPatterns : List String := ["services", "apps", "packages", "libs"]

/-- `Detector.detectMonorepo`: every directory one level below a
conventional parent becomes a component. -/
def detectMonorepo (repo : Repo) : List Component :=
  monorepoPatterns.flatMap (fun pat =>
    ((glob repo [pat, "*"]).filter (fun dir => isDirAt repo dir)).map
      (analyzeDirectory repo))

/-- `Detector.detectGoComponentType`. -/
def detectGoComponentType (repo : Repo) : String :=
  if fileExistsAt repo ["cmd"] || fileExistsAt repo ["main.go"] then "service"
  else "library"

/-- `Detector.detectPythonComponentType`. -/
def detectPythonComponentType (repo : Repo) : String :=
  if fileExistsAt repo ["Dockerfile"] then "service" else "library"

/-- `Detector.detectNodeComponentType`. -/
def detectNodeComponentType (repo : Repo) : String :=
  if fileExistsAt repo ["Dockerfile"] then "service" else "library"

/-- `extractGoModuleName` (a placeholder in the source: the repository
base name, `"."` for the modelled root). -/
def extractGoModuleName : String := baseOf []

/-- `extractPythonPackageName` (placeholder, as above). -/
def extractPythonPackageName : String := baseOf []

/-- `extractNodePackageName` (placeholder, as above). -/
def extractNodePackageName : String := baseOf []

/-- `Detector.detectSingleComponent`: ordered manifest-signature tests
against the repository root; the first match decides the language. The
C# arm reflects the source verbatim: `dirHasFile(".", "*.csproj")` globs
the repository root and `fileExists("*.sln")` stats the literal name
`*.sln`. -/
def detectSingleComponent (repo : Repo) : Option Component :=
  if fileExistsAt repo ["go.mod"] then
    some { path := [], language := "go", type := detectGoComponentType repo,
           name := extractGoModuleName }
  else if fileExistsAt repo ["setup.py"] || fileExistsAt repo ["pyproject.toml"] then
    some { path := [], language := "python", type := detectPythonComponentType repo,
           name := extractPythonPackageName }
  else if fileExistsAt repo ["package.json"] then
    some { path := [], language := "javascript", type := detectNodeComponentType repo,
           name := extractNodePackageName }
  else if fileExistsAt repo ["Cargo.toml"] then
    some { path := [], language := "rust", type := "service", name := baseOf [] }
  else if fileExistsAt repo ["pom.xml"] || fileExistsAt repo ["build.gradle"] ||
      fileExistsAt repo ["build.gradle.kts"] then
    some { path := [], language := "java", type := "service", name := baseOf [] }
  else if fileExistsAt repo ["Gemfile"] then
    some { path := [], language := "ruby",
           type := if fileExistsAt repo ["config", "routes.rb"] then "service"
                   else "library",
           name := baseOf [] }
  else if dirHasFile repo [] "*.csproj" || fileExistsAt repo ["*.sln"] then
    some { path := [], language := "csharp", type := "service", name := baseOf [] }
  else none

/-- The entry-point patterns of strategy 3. -/
def entryPointPatterns : List (List String) :=
  [["cmd", "*"], ["src", "main.*"], ["main.*"]]

/-- `Detector.detectByDirectory`: the containing directory of every
matched entry point becomes a component. -/
def detectByDirectory (repo : Repo) : List Component :=
  entryPointPatterns.flatMap (fun pat =>
    (glob repo pat).map (fun m => analyzeDirectory repo m.dropLast))

/-- Directory names pruned by `collectComponentFiles`. -/
def skipDirNames : List String := ["node_modules", "vendor", ".git"]

/-- Source-file extensions recognised by `isSourceFile`. -/
def sourceExts : List String :=
  [".go", ".py", ".js", ".ts", ".jsx", ".tsx", ".java", ".rs", ".rb",
   ".php", ".c", ".cpp"]

/-- `isSourceFile` (detector helper): lowercased extension membership. -/
def isSourceFile (p : List String) : Bool :=
  sourceExts.contains (extOf ((p.getLast?).getD ""))

/-- The walk in `collectComponentFiles` reaches a file `f` below `path`
iff no directory it visits on the way down is named in the prune list;
the walk root itself is pruned only when it is a directory with a pruned
base name. -/
def walkReaches (repo : Repo) (path f : List String) : Bool :=
  listIsPre path f &&
  (f == path ||
    (!(match path.getLast? with
       | some b => skipDirNames.contains b && isDirAt repo path
       | none => false) &&
     ((f.drop path.length).dropLast.all (fun s => !(skipDirNames.contains s)))))

/-- `Detector.collectComponentFiles`: walks the component path, prunes
`node_modules`/`vendor`/`.git`, keeps source files; with the modelled
root `"."`, `filepath.Rel` is the identity on the walked paths. Per-file
walk errors are swallowed (the error-free inventory model has none). -/
def collectComponentFiles (repo : Repo) (path : List String) :
    List (List String) :=
  (filePaths repo).filter (fun f => walkReaches repo path f && isSourceFile f)

/-- Entries visited by the `hasTests` walk: the walk root and everything
below it (this walk prunes nothing before its first hit, and a hit
settles the result). -/
def entriesUnder (repo : Repo) (path : List String) : List (List String) :=
  path :: (allEntries repo).filter (fun p => listIsPre path p && !(p == path))

/-- `Detector.hasTests`: some visited entry looks like a test file. -/
def hasTestsIn (repo : Repo) (path : List String) : Bool :=
  (entriesUnder repo path).any (fun p => isTestFile (renderPath p))

/-- `Detector.extractGoDependencies` (placeholder in the source: empty). -/
def detectorExtractGoDeps (_path : List String) : List Dependency := []

/-- `Detector.extractPythonDependencies` (placeholder: empty). -/
def detectorExtractPythonDeps (_path : List String) : List Dependency := []

/-- `Detector.extractNodeDependencies` (placeholder: empty). -/
def detectorExtractNodeDeps (_path : List String) : List Dependency := []

/-- `Detector.extractDependencies` (the detector's own, distinct from the
metadata extractor's). -/
def detectorExtractDependencies (c : Component) : List Dependency :=
  if c.language = "go" then detectorExtractGoDeps c.path
  else if c.language = "python" then detectorExtractPythonDeps c.path
  else if c.language = "javascript" ∨ c.language = "typescript" then
    detectorExtractNodeDeps c.path
  else []

/-- `Detector.generateDescription`. -/
def generateDescription (c : Component) : String :=
  "A " ++ c.language ++ " " ++ c.type ++ " component"

/-- `Detector.enrichComponent`. -/
def enrichComponent (repo : Repo) (c : Component) : Component :=
  let c1 := { c with files := collectComponentFiles repo c.path }
  let c2 := { c1 with hasTests := hasTestsIn repo c.path }
  let c3 := { c2 with dependencies := detectorExtractDependencies c2 }
  if c3.description = "" then { c3 with description := generateDescription c3 }
  else c3

/-- `Detector.DetectComponents`: the three strategies in order, stopping
at the first that yields a component, then uniform enrichment. The Go
function's error result is invariably `nil`. -/
def detectComponents (repo : Repo) : List Component :=
  let mono := detectMonorepo repo
  let base :=
    if mono = [] then
      match detectSingleComponent repo with
      | some c => [c]
      | none => detectByDirectory repo
    else mono
  base.map (enrichComponent repo)

/-! ### Tree scanner (`Scanner.Scan`, package `analyzer`).
Walking is modelled over an explicit node tree in which `errEntry`
stands for an entry whose `lstat` fails (permission denied, broken
symlink); an `errEntry` at the root models a root that cannot be
opened. -/

/-- The scanner's built-in exclusion list. -/
def alwaysExclude : List String :=
  [".git", ".docbrown", "node_modules", "vendor", ".venv", "venv",
   "__pycache__", "dist", "build", "target", ".next", ".cache"]

/-- `Scanner.shouldExclude`: built-in substring test on the relative
path, then the configured glob patterns. -/
def shouldExclude (excl : List String) (path : List String) : Bool :=
  let rel := renderPath path
  alwaysExclude.any (fun pat => strContains rel pat) ||
  excl.any (fun pat => matchPat pat.toList rel.toList)

/-- The extension-to-language table of `detectLanguage`. -/
def languageMap : List (String × String) :=
  [(".go", "go"), (".py", "python"), (".js", "javascript"),
   (".ts", "typescript"), (".jsx", "javascript"), (".tsx", "typescript"),
   (".java", "java"), (".rs", "rust"), (".rb", "ruby"), (".php", "php"),
   (".c", "c"), (".cpp", "cpp"), (".cs", "csharp"), (".kt", "kotlin"),
   (".swift", "swift"), (".sh", "shell")]

/-- `detectLanguage`: lowercased extension lookup, `""` if unknown. -/
def detectLanguage (path : String) : String :=
  (languageMap.lookup (extOf (baseNameStr path))).getD ""

/-- `config.FileInfo`. -/
structure FileInfo where
  path : String
  size : Int
  language : String
  isTest : Bool
deriving DecidableEq

/-- The scan's accumulated inventory (`RepoStructure` without the
presentational tree rendering, which no claim touches). Language counts
are an association list in first-seen order. -/
structure ScanState where
  files : List FileInfo
  languages : List (String × Nat)
  totalFiles : Nat
deriving DecidableEq

/-- Increment a language's count. -/
def bumpLang : List (String × Nat) → String → List (String × Nat)
  | [], lang => [(lang, 1)]
  | (k, n) :: rest, lang =>
    if k = lang then (k, n + 1) :: rest else (k, n) :: bumpLang rest lang

/-- Result of one walk-callback invocation: continue, prune
(`filepath.SkipDir`), or abort with an error. -/
inductive WalkRes where
  | ok
  | skipDir
  | fail (msg : String)
deriving DecidableEq

/-- The walk callback of `Scanner.Scan`: an incoming entry error is
returned as-is (aborting the walk); excluded directories are pruned;
remaining regular files are recorded. -/
def scanVisit (excl : List String) (st : ScanState) (path : List String)
    (isDir : Bool) (size : Int) (errIn : Option String) :
    ScanState × WalkRes :=
  match errIn with
  | some msg => (st, WalkRes.fail msg)
  | none =>
    if shouldExclude excl path then
      (st, if isDir then WalkRes.skipDir else WalkRes.ok)
    else if isDir then (st, WalkRes.ok)
    else
      let relPath := renderPath path
      let language := detectLanguage relPath
      let fi : FileInfo := { path := relPath, size := size,
                             language := language,
                             isTest := isTestFile relPath }
      ({ files := st.files ++ [fi],
         languages := if language ≠ "" then bumpLang st.languages language
                      else st.languages,
         totalFiles := st.totalFiles + 1 }, WalkRes.ok)

/-- Filesystem tree for the scanner walk; `errEntry` is an entry whose
`lstat` fails with the given message. -/
inductive FsNode where
  | file (name : String) (size : Int)
  | dir (name : String) (children : List FsNode)
  | errEntry (name : String) (msg : String)

/-- Entry name. -/
def FsNode.nodeName : FsNode → String
  | .file n _ => n
  | .dir n _ => n
  | .errEntry n _ => n

/-- Whether a SkipDir result from this entry is swallowed by the
enclosing loop (directories and failed-lstat entries) or propagated
(files), following `filepath.Walk`. -/
def FsNode.skipSwallowed : FsNode → Bool
  | .file _ _ => false
  | _ => true

mutual
/-- `filepath.Walk`'s recursion, instantiated with the scan callback. -/
def walkNode (excl : List String) (path : List String) (n : FsNode)
    (st : ScanState) : ScanState × WalkRes :=
  match n with
  | .file _ size => scanVisit excl st path false size none
  | .errEntry _ msg => scanVisit excl st path false 0 (some msg)
  | .dir _ children =>
    match scanVisit excl st path true 0 none with
    | (st1, WalkRes.ok) => walkChildren excl path children st1
    | other => other

/-- The loop over a directory's entries inside `filepath.Walk`. -/
def walkChildren (excl : List String) (dirPath : List String)
    (cs : List FsNode) (st : ScanState) : ScanState × WalkRes :=
  match cs with
  | [] => (st, WalkRes.ok)
  | c :: rest =>
    match walkNode excl (dirPath ++ [c.nodeName]) c st with
    | (st1, WalkRes.ok) => walkChildren excl dirPath rest st1
    | (st1, WalkRes.skipDir) =>
      if c.skipSwallowed then walkChildren excl dirPath rest st1
      else (st1, WalkRes.skipDir)
    | (st1, WalkRes.fail msg) => (st1, WalkRes.fail msg)
end

/-- `Scanner.Scan` with root `"."`: a non-nil walk result other than
SkipDir is wrapped and returned as the scan error. -/
def scanRepo (excl : List String) (root : FsNode) : Except String ScanState :=
  match walkNode excl [] root { files := [], languages := [], totalFiles := 0 } with
  | (_, WalkRes.fail msg) => Except.error ("failed to scan repository: " ++ msg)
  | (st, _) => Except.ok st

mutual
/-- No entry of the tree has a failing `lstat`. -/
def FsNode.errFree : FsNode → Bool
  | .file _ _ => true
  | .errEntry _ _ => false
  | .dir _ cs => errFreeList cs

/-- `errFree` over a list of children. -/
def errFreeList : List FsNode → Bool
  | [] => true
  | c :: rest => c.errFree && errFreeList rest
end

/-! ### Concrete inputs for the witness and counterexample instances -/

/-- Example cache file store. -/
def cfsEx : CFs := [("f", "x")]

/-- Example cache file store differing from `cfsEx` in one byte of
`"f"`. -/
def cfsEx2 : CFs := [("f", "y")]

/-- Cache entry for `cfsEx` as `Update` would write it. -/
def entryEx : ComponentCache :=
  { hash := hashComponent cfsEx "a" ["f"], filesHash := hashFiles cfsEx ["f"],
    lastGenerated := 0, files := ["f"] }

/-- Enabled manager holding `entryEx`. -/
def mgrEx : Manager := { components := [("a", entryEx)], enabled := true, ttl := 10 }

/-- Enabled empty manager. -/
def mgrEnabled : Manager := { components := [], enabled := true, ttl := 10 }

/-- File store whose digest transcript cannot tell `["ab"]` from
`["a", "b"]` (all contents empty). -/
def c2fs : CFs := [("a", ""), ("b", ""), ("ab", "")]

/-- A stale-looking pre-existing entry. -/
def c9old : ComponentCache := { hash := [], filesHash := [], lastGenerated := 0, files := [] }

/-- Disabled manager holding `c9old`. -/
def c9mgr : Manager := { components := [("c", c9old)], enabled := false, ttl := 10 }

/-- Enabled manager holding `c9old`. -/
def c9mgrOn : Manager := { components := [("c", c9old)], enabled := true, ttl := 10 }

/-- Store in which `"p"` cannot be opened. -/
def c10fs1 : CFs := [("g", "y")]

/-- Store in which `"p"` exists with empty content. -/
def c10fs2 : CFs := [("g", "y"), ("p", "")]

/-- Repository with both a monorepo-pattern directory and a root-level
manifest. -/
def repoC3 : Repo := [(["services", "a", "x.go"], ""), (["go.mod"], "")]

/-- Repository whose `package.json` is not valid JSON. -/
def repoC4bad : Repo := [(["package.json"], "\x7b not json")]

/-- A Go component at the repository root. -/
def compGoEx : Component := { language := "go" }

/-- A JavaScript component at the repository root. -/
def compJsEx : Component := { language := "javascript" }

/-- Single-component Go repository. -/
def repoC6 : Repo := [(["go.mod"], ""), (["main.go"], "")]

/-- Monorepo-shaped repository. -/
def repoC6w : Repo := [(["services", "a", "x.go"], "")]

/-- Repository matching three manifest signatures at once. -/
def repoC7 : Repo := [(["go.mod"], ""), (["package.json"], ""), (["Gemfile"], "")]

/-- Maven manifest with two groupIds, two artifactIds, one version. -/
def pomEx : String :=
  "<groupId>org.alpha</groupId><artifactId>libone</artifactId>" ++
  "<version>1.0</version><groupId>org.beta</groupId>" ++
  "<artifactId>libtwo</artifactId>"

/-- Repository holding `pomEx`. -/
def repoC8 : Repo := [(["pom.xml"], pomEx)]

/-- Tree with one unreadable entry between two readable files. -/
def c5tree : FsNode :=
  FsNode.dir "" [FsNode.file "a.go" 10, FsNode.errEntry "x" "permission denied",
                 FsNode.file "b.go" 5]

/-- Error-free tree. -/
def c5okTree : FsNode := FsNode.dir "" [FsNode.file "m.go" 3]

/-- The per-language precondition "the component's manifest files are
absent": every path the dispatched extractor would read fails to open
(for C#, no `.csproj` file lies directly below the component path;
for unsupported languages no manifest is consulted at all). -/
def manifestAbsent (repo : Repo) (path : List String) (lang : String) : Prop :=
  (lang = "go" → readFile repo (path ++ ["go.mod"]) = none)
  ∧ (lang = "python" → readFile repo (path ++ ["requirements.txt"]) = none
      ∧ readFile repo (path ++ ["pyproject.toml"]) = none)
  ∧ ((lang = "javascript" ∨ lang = "typescript") →
      readFile repo (path ++ ["package.json"]) = none)
  ∧ (lang = "rust" → readFile repo (path ++ ["Cargo.toml"]) = none)
  ∧ (lang = "java" → readFile repo (path ++ ["pom.xml"]) = none
      ∧ readFile repo (path ++ ["build.gradle"]) = none)
  ∧ (lang = "ruby" → readFile repo (path ++ ["Gemfile"]) = none)
  ∧ (lang = "csharp" → ∀ e ∈ ((readDirOpt repo path).getD []),
      ¬(e.isDir = false ∧ endsWithStr e.name ".csproj" = true))

/-! ### Helper lemmas -/

theorem foldl_const {α β : Type} (f : β → α → β) :
    ∀ (l : List α) (b : β), (∀ x ∈ l, ∀ acc, f acc x = acc) → l.foldl f b = b := by
  intro l
  induction l with
  | nil => intro b _; rfl
  | cons a rest ih =>
    intro b h
    simp only [List.foldl_cons]
    rw [h a (by simp) b]
    exact ih b (fun x hx acc => h x (by simp [hx]) acc)

theorem pomPairs_length : ∀ (gs arts vs : List String),
    (pomPairs gs arts vs).length = min gs.length arts.length := by
  intro gs
  induction gs with
  | nil => intro arts vs; cases arts <;> simp [pomPairs]
  | cons g gs ih =>
    intro arts vs
    cases arts with
    | nil => simp [pomPairs]
    | cons a arts =>
      simp only [pomPairs, List.length_cons, ih]
      omega

theorem pomPairs_get : ∀ (gs arts vs : List String) (i : Nat),
    i < min gs.length arts.length →
    (pomPairs gs arts vs)[i]? =
      some { name := (gs[i]?).getD "" ++ ":" ++ ((arts[i]?).getD ""),
             version := (vs[i]?).getD "", type := "external" } := by
  intro gs
  induction gs with
  | nil => intro arts vs i h; simp at h
  | cons g gs ih =>
    intro arts vs i h
    cases arts with
    | nil => simp at h
    | cons a arts =>
      cases i with
      | zero =>
        simp only [pomPairs, List.getElem?_cons_zero, Option.getD_some]
        cases vs <;> simp
      | succ n =>
        have hn : n < min gs.length arts.length := by
          simp only [List.length_cons] at h
          omega
        simp only [pomPairs, List.getElem?_cons_succ]
        rw [ih arts vs.tail n hn]
        cases vs <;> simp

theorem toList_inj {s t : String} (h : s.toList = t.toList) : s = t := by
  cases s
  cases t
  exact congrArg String.mk h

theorem lookupComp_insert (cs : List (String × ComponentCache)) (name : String)
    (e : ComponentCache) : lookupComp (insertComp cs name e) name = some e := by
  induction cs with
  | nil => simp [insertComp, lookupComp]
  | cons kv rest ih =>
    obtain ⟨k, v⟩ := kv
    by_cases hk : k = name
    · simp [insertComp, hk, lookupComp]
    · simp [insertComp, hk, lookupComp, ih]

theorem map_congr_mem {α β : Type} :
    ∀ (l : List α) (f g : α → β), (∀ x ∈ l, f x = g x) → l.map f = l.map g := by
  intro l
  induction l with
  | nil => intro f g _; rfl
  | cons a rest ih =>
    intro f g h
    simp only [List.map_cons]
    rw [h a (by simp), ih f g (fun x hx => h x (by simp [hx]))]

theorem map_eq_at_mem {α β : Type} (f g : α → β) :
    ∀ (l : List α) (x : α), l.map f = l.map g → x ∈ l → f x = g x := by
  intro l
  induction l with
  | nil => intro x _ hx; cases hx
  | cons a rest ih =>
    intro x h hx
    simp only [List.map_cons, List.cons.injEq] at h
    rcases List.mem_cons.mp hx with hx | hx
    · subst hx; exact h.1
    · exact ih x h.2 hx

theorem flatten_inj_len :
    ∀ (xs ys : List (List Char)), xs.map List.length = ys.map List.length →
      xs.flatten = ys.flatten → xs = ys := by
  intro xs
  induction xs with
  | nil =>
    intro ys h1 _
    cases ys with
    | nil => rfl
    | cons b bs => simp at h1
  | cons a rest ih =>
    intro ys h1 h2
    cases ys with
    | nil => simp at h1
    | cons b bs =>
      simp only [List.map_cons, List.cons.injEq] at h1
      simp only [List.flatten_cons] at h2
      obtain ⟨hab, hrest⟩ := List.append_inj h2 h1.1
      rw [hab, ih bs h1.2 hrest]

/-! ### Claim theorems, witnesses and counterexamples -/

/-- C1: for every component name and file list, `IsStale` evaluates its
conditions in order and short-circuits at the first true one: caching
disabled gives true; a missing entry gives true; elapsed time beyond the
TTL gives true; a digest mismatch gives true; otherwise false. -/
theorem cache_isStale_order (m : Manager) (name : String) (files : List String)
    (now : Nat) (fs : CFs) :
    (m.enabled = false → Manager.isStale m name files now fs = true)
  ∧ (m.enabled = true → lookupComp m.components name = none →
      Manager.isStale m name files now fs = true)
  ∧ (∀ e, m.enabled = true → lookupComp m.components name = some e →
      now - e.lastGenerated > m.ttl → Manager.isStale m name files now fs = true)
  ∧ (∀ e, m.enabled = true → lookupComp m.components name = some e →
      ¬(now - e.lastGenerated > m.ttl) → hashFiles fs files ≠ e.filesHash →
      Manager.isStale m name files now fs = true)
  ∧ (∀ e, m.enabled = true → lookupComp m.components name = some e →
      ¬(now - e.lastGenerated > m.ttl) → hashFiles fs files = e.filesHash →
      Manager.isStale m name files now fs = false) := by
  refine ⟨?_, ?_, ?_, ?_, ?_⟩
  · intro h; simp [Manager.isStale, h]
  · intro h1 h2; simp [Manager.isStale, h1, h2]
  · intro e h1 h2 h3; simp [Manager.isStale, h1, h2, h3]
  · intro e h1 h2 h3 h4; simp [Manager.isStale, h1, h2, h3, h4]
  · intro e h1 h2 h3 h4; simp [Manager.isStale, h1, h2, h3, h4]

/-- Witness for C1: a fresh enabled cache entry within its TTL with an
unchanged digest is not stale. -/
theorem cache_isStale_order_witness :
    Manager.isStale mgrEx "a" ["f"] 5 cfsEx = false :=
  (cache_isStale_order mgrEx "a" ["f"] 5 cfsEx).2.2.2.2 entryEx rfl rfl
    (by decide) rfl

/-- C9 as stated is false: with caching disabled, `Update` leaves a prior
entry untouched (timestamp stays 0) instead of overwriting it with a
fresh digest and the current timestamp 5. -/
theorem cache_update_disabled_counterexample :
    lookupComp ((Manager.update c9mgr "c" ["f"] 5 cfsEx)).components "c" = some c9old
  ∧ c9old.lastGenerated ≠ 5 := by
  exact ⟨rfl, by decide⟩

/-- C9 (amended): when caching is enabled, `Update` unconditionally
overwrites any entry under the component name with a freshly computed
digest and the current timestamp, with no merge or partial update; when
caching is disabled, `Update` is a no-op. -/
theorem cache_update_overwrites (m : Manager) (name : String)
    (files : List String) (now : Nat) (fs : CFs) :
    (m.enabled = true →
      lookupComp (Manager.update m name files now fs).components name =
        some { hash := hashComponent fs name files,
               filesHash := hashFiles fs files,
               lastGenerated := now, files := files })
  ∧ (m.enabled = false → Manager.update m name files now fs = m) := by
  constructor
  · intro h; simp [Manager.update, h, lookupComp_insert]
  · intro h; simp [Manager.update, h]

/-- Witness for the amended C9: updating over an existing stale entry
replaces every field with the fresh values. -/
theorem cache_update_overwrites_witness :
    lookupComp (Manager.update c9mgrOn "c" ["f"] 5 cfsEx).components "c" =
      some { hash := hashComponent cfsEx "c" ["f"],
             filesHash := hashFiles cfsEx ["f"],
             lastGenerated := 5, files := ["f"] } :=
  (cache_update_overwrites c9mgrOn "c" ["f"] 5 cfsEx).1 rfl

/-- C10: the digest is total and treats an unopenable file exactly like a
present-but-empty file — the path is hashed either way and no content
contributes — so staleness cannot distinguish the two states. -/
theorem cache_digest_unreadable_empty (fs1 fs2 : CFs) (p : String)
    (files : List String) (h1 : CFs.read fs1 p = none)
    (h2 : CFs.read fs2 p = some "")
    (hagree : ∀ q, q ≠ p → CFs.read fs1 q = CFs.read fs2 q) :
    hashFiles fs1 files = hashFiles fs2 files
  ∧ ∀ (m : Manager) (name : String) (now : Nat),
      Manager.isStale m name files now fs1 =
        Manager.isStale m name files now fs2 := by
  have hseg : ∀ f, fileSeg fs1 f = fileSeg fs2 f := by
    intro f
    by_cases hf : f = p
    · subst hf; simp [fileSeg, h1, h2]
    · simp [fileSeg, hagree f hf]
  have hh : hashFiles fs1 files = hashFiles fs2 files := by
    simp only [hashFiles]
    rw [map_congr_mem files _ _ (fun x _ => hseg x)]
  exact ⟨hh, fun m name now => by simp only [Manager.isStale, hh]⟩

/-- Witness for C10 at a concrete store: dropping `"p"` versus keeping it
empty yields the same digest and the same staleness answer. -/
theorem cache_digest_unreadable_empty_witness :
    hashFiles c10fs1 ["p", "g"] = hashFiles c10fs2 ["p", "g"]
  ∧ Manager.isStale mgrEnabled "a" ["p", "g"] 0 c10fs1 =
      Manager.isStale mgrEnabled "a" ["p", "g"] 0 c10fs2 := by
  have hagree : ∀ q, q ≠ "p" → CFs.read c10fs1 q = CFs.read c10fs2 q := by
    intro q hq
    by_cases hg : "g" = q
    · simp [c10fs1, c10fs2, CFs.read, hg]
    · simp [c10fs1, c10fs2, CFs.read, hg, Ne.symm hq]
  have h := cache_digest_unreadable_empty c10fs1 c10fs2 "p" ["p", "g"] rfl rfl hagree
  exact ⟨h.1, h.2 mgrEnabled "a" 0⟩

/-- C2 as stated is false on two counts: the digest transcript has no
separators, so replacing the listed file `"ab"` by the two files `"a"`
and `"b"` (all contents empty) leaves the digest unchanged and `IsStale`
answers false although files were added and removed; and with caching
disabled, `IsStale` answers true immediately after `Update` even with an
identical list and contents. -/
theorem cache_stale_transcript_counterexample :
    Manager.isStale (Manager.update mgrEnabled "comp" ["ab"] 0 c2fs) "comp"
      ["a", "b"] 0 c2fs = false
  ∧ Manager.isStale (Manager.update c9mgr "c" ["f"] 0 cfsEx) "c" ["f"] 0 cfsEx
      = true := by
  exact ⟨rfl, rfl⟩

/-- C2 (amended): with caching enabled, `IsStale` directly after `Update`
with the same file list and unchanged contents is false while the elapsed
time stays within the TTL; it is true whenever a byte of a listed file's
content changes (content length preserved); and it is true when a file
with a nonempty path is appended to the list — list edits are detected
exactly when they change the path-plus-content transcript, and
transcript-preserving edits are missed. -/
theorem cache_update_isStale_amended (m : Manager) (name : String)
    (files : List String) (fs : CFs) (t now : Nat) (hen : m.enabled = true) :
    (now - t ≤ m.ttl →
      Manager.isStale (Manager.update m name files t fs) name files now fs
        = false)
  ∧ (∀ (fs' : CFs) (p c c' : String), p ∈ files →
      CFs.read fs p = some c → CFs.read fs' p = some c' →
      c'.length = c.length → c' ≠ c →
      (∀ q, q ≠ p → CFs.read fs' q = CFs.read fs q) →
      Manager.isStale (Manager.update m name files t fs) name files now fs'
        = true)
  ∧ (∀ p', p' ≠ "" →
      Manager.isStale (Manager.update m name files t fs) name (files ++ [p'])
        now fs = true) := by
  have hlk : lookupComp (Manager.update m name files t fs).components name =
      some { hash := hashComponent fs name files,
             filesHash := hashFiles fs files,
             lastGenerated := t, files := files } := by
    simp [Manager.update, hen, lookupComp_insert]
  have henm : (Manager.update m name files t fs).enabled = true := by
    simp [Manager.update, hen]
  have httlm : (Manager.update m name files t fs).ttl = m.ttl := by
    simp [Manager.update, hen]
  refine ⟨?_, ?_, ?_⟩
  · intro httl
    have hnot : ¬ (now - t > m.ttl) := by omega
    simp [Manager.isStale, henm, hlk, httlm, hnot]
  · intro fs' p c c' hp hc hc' hlen hne hagree
    have hlen' : c'.toList.length = c.toList.length := hlen
    have key : hashFiles fs' files ≠ hashFiles fs files := by
      intro hEq
      have hl : ∀ f, (fileSeg fs' f).length = (fileSeg fs f).length := by
        intro f
        by_cases hf : f = p
        · subst hf
          simp [fileSeg, hc, hc', hlen, hlen']
        · simp [fileSeg, hagree f hf]
      have hmapLen : (files.map (fileSeg fs')).map List.length =
          (files.map (fileSeg fs)).map List.length := by
        simp only [List.map_map]
        exact map_congr_mem files _ _ (fun x _ => hl x)
      have hsegs := flatten_inj_len (files.map (fileSeg fs'))
        (files.map (fileSeg fs)) hmapLen hEq
      have hatp := map_eq_at_mem (fileSeg fs') (fileSeg fs) files p hsegs hp
      rw [fileSeg, fileSeg, hc, hc'] at hatp
      exact hne (toList_inj (List.append_cancel_left hatp))
    by_cases hT : now - t > m.ttl
    · simp [Manager.isStale, henm, hlk, httlm, hT]
    · simp [Manager.isStale, henm, hlk, httlm, hT, key]
  · intro p' hp'
    have hplist : p'.toList ≠ [] := by
      intro h
      exact hp' (toList_inj h)
    have hpos : 0 < (fileSeg fs p').length := by
      have h1 : 0 < p'.toList.length := List.length_pos.mpr hplist
      unfold fileSeg
      rw [List.length_append]
      omega
    have key : hashFiles fs (files ++ [p']) ≠ hashFiles fs files := by
      intro hEq
      have hlen1 : (hashFiles fs (files ++ [p'])).length =
          (hashFiles fs files).length + (fileSeg fs p').length := by
        simp [hashFiles]
      have := congrArg List.length hEq
      omega
    by_cases hT : now - t > m.ttl
    · simp [Manager.isStale, henm, hlk, httlm, hT]
    · simp [Manager.isStale, henm, hlk, httlm, hT, key]

/-- Witness for the amended C2: the three parts at concrete stores — an
unchanged store is fresh, a one-byte content change is stale, an
appended file is stale. -/
theorem cache_update_isStale_amended_witness :
    Manager.isStale (Manager.update mgrEnabled "c" ["f"] 0 cfsEx) "c" ["f"] 3
      cfsEx = false
  ∧ Manager.isStale (Manager.update mgrEnabled "c" ["f"] 0 cfsEx) "c" ["f"] 3
      cfsEx2 = true
  ∧ Manager.isStale (Manager.update mgrEnabled "c" ["f"] 0 cfsEx) "c"
      ["f", "g"] 3 cfsEx = true := by
  have hagree : ∀ q, q ≠ "f" → CFs.read cfsEx2 q = CFs.read cfsEx q := by
    intro q hq
    simp [cfsEx, cfsEx2, CFs.read, Ne.symm hq]
  have h := cache_update_isStale_amended mgrEnabled "c" ["f"] cfsEx 0 3 rfl
  exact ⟨h.1 (by decide),
         h.2.1 cfsEx2 "f" "x" "y" (by decide) rfl rfl rfl (by decide) hagree,
         h.2.2 "g" (by decide)⟩

/-- C8: for every readable Maven-style manifest, the extractor pairs
the Nth groupId capture with the Nth artifactId capture, takes the Nth
version capture when present and the empty version otherwise, and
returns exactly min(#groupIds, #artifactIds) dependencies. -/
theorem pom_positional_pairing (repo : Repo) (path : List String)
    (content : String)
    (h : readFile repo (path ++ ["pom.xml"]) = some content) :
    (extractJavaDependencies repo path).length =
      min (tagCaptures "groupId" content).length
        (tagCaptures "artifactId" content).length
  ∧ ∀ i, i < (extractJavaDependencies repo path).length →
      (extractJavaDependencies repo path)[i]? =
        some { name := ((tagCaptures "groupId" content)[i]?).getD "" ++ ":" ++
                       (((tagCaptures "artifactId" content)[i]?).getD ""),
               version := ((tagCaptures "version" content)[i]?).getD "",
               type := "external" } := by
  have hE : extractJavaDependencies repo path =
      pomPairs (tagCaptures "groupId" content)
        (tagCaptures "artifactId" content) (tagCaptures "version" content) := by
    simp [extractJavaDependencies, h]
  constructor
  · rw [hE, pomPairs_length]
  · intro i hi
    rw [hE] at hi ⊢
    rw [pomPairs_length] at hi
    exact pomPairs_get _ _ _ i hi

/-- Witness for C8 at `pomEx`: two groupIds, two artifactIds and one
version yield exactly two dependencies, the second with empty version. -/
theorem pom_positional_pairing_witness :
    (extractJavaDependencies repoC8 []).length =
      min (tagCaptures "groupId" pomEx).length
        (tagCaptures "artifactId" pomEx).length
  ∧ (extractJavaDependencies repoC8 [])[1]? =
      some { name := ((tagCaptures "groupId" pomEx)[1]?).getD "" ++ ":" ++
                     (((tagCaptures "artifactId" pomEx)[1]?).getD ""),
             version := ((tagCaptures "version" pomEx)[1]?).getD "",
             type := "external" } := by
  have h := pom_positional_pairing repoC8 [] pomEx rfl
  have hlen : (extractJavaDependencies repoC8 []).length = 2 := rfl
  exact ⟨h.1, h.2 1 (by rw [hlen]; omega)⟩

/-- C4: dependency extraction is non-fatal — with every relevant
manifest absent the dispatched extractor returns the empty list rather
than an error, and a present but unparsable `package.json` likewise
yields the empty list. -/
theorem extract_dependencies_non_fatal :
    (∀ (repo : Repo) (c : Component),
       manifestAbsent repo c.path c.language → ExtractDependencies repo c = [])
  ∧ (∀ (repo : Repo) (c : Component) (content : String),
       (c.language = "javascript" ∨ c.language = "typescript") →
       readFile repo (c.path ++ ["package.json"]) = some content →
       parsePackageJson content = none →
       ExtractDependencies repo c = []) := by
  constructor
  · intro repo c h
    obtain ⟨hgo, hpy, hjs, hrs, hjv, hrb, hcs⟩ := h
    by_cases h1 : c.language = "go"
    · simp [ExtractDependencies, h1, extractGoDependencies, hgo h1]
    · by_cases h2 : c.language = "python"
      · simp [ExtractDependencies, h1, h2, extractPythonDependencies,
              (hpy h2).1, (hpy h2).2]
      · by_cases h3 : c.language = "javascript" ∨ c.language = "typescript"
        · simp [ExtractDependencies, h1, h2, h3, extractNodeDependencies, hjs h3]
        · by_cases h4 : c.language = "rust"
          · simp [ExtractDependencies, h1, h2, h3, h4,
                  extractRustDependencies, hrs h4]
          · by_cases h5 : c.language = "java"
            · simp [ExtractDependencies, h1, h2, h3, h4, h5,
                    extractJavaDependencies, (hjv h5).1, (hjv h5).2]
            · by_cases h6 : c.language = "ruby"
              · simp [ExtractDependencies, h1, h2, h3, h4, h5, h6,
                      extractRubyDependencies, hrb h6]
              · by_cases h7 : c.language = "csharp"
                · have hcs' := hcs h7
                  simp only [ExtractDependencies, h1, h2, h3, h4, h5, h6, h7,
                    if_false, if_true, ite_true, ite_false, if_neg, if_pos,
                    not_false_eq_true]
                  unfold extractCSharpDependencies
                  cases hrd : readDirOpt repo c.path with
                  | none => simp
                  | some entries =>
                    rw [hrd] at hcs'
                    simp only [Option.getD_some] at hcs'
                    simp only []
                    apply foldl_const
                    intro e he acc
                    have hne := hcs' e he
                    have hb : (!e.isDir && endsWithStr e.name ".csproj") = false := by
                      cases hd : e.isDir <;>
                        cases hw : endsWithStr e.name ".csproj" <;> simp_all
                    simp [hb]
                · simp [ExtractDependencies, h1, h2, h3, h4, h5, h6, h7]
  · intro repo c content hlang hread hparse
    have h1 : ¬ c.language = "go" := by rcases hlang with h | h <;> simp [h]
    have h2 : ¬ c.language = "python" := by rcases hlang with h | h <;> simp [h]
    simp [ExtractDependencies, h1, h2, hlang, extractNodeDependencies,
          hread, hparse]

/-- Witness for C4: the empty repository gives a Go component no
dependencies and no error, and a malformed `package.json` degrades to
the empty list. -/
theorem extract_dependencies_non_fatal_witness :
    ExtractDependencies [] compGoEx = []
  ∧ ExtractDependencies repoC4bad compJsEx = [] := by
  refine ⟨extract_dependencies_non_fatal.1 [] compGoEx ?_,
          extract_dependencies_non_fatal.2 repoC4bad compJsEx "\x7b not json"
            (Or.inl rfl) rfl rfl⟩
  refine ⟨fun _ => rfl, fun _ => ⟨rfl, rfl⟩, fun _ => rfl, fun _ => rfl,
          fun _ => ⟨rfl, rfl⟩, fun _ => rfl, ?_⟩
  intro hlang
  simp [compGoEx] at hlang

theorem ne_nil_of_isEmpty_false {α : Type} (l : List α)
    (h : l.isEmpty = false) : l ≠ [] := by
  cases l
  · simp at h
  · simp

/-- C3: the three detection strategies run in fixed order and the first
that yields at least one component wins — strategy 2 runs only on an
empty strategy-1 result and strategy 3 only when both earlier results
are empty — with enrichment applied uniformly to the winner. -/
theorem detector_strategy_order (repo : Repo) :
    (detectMonorepo repo ≠ [] →
       detectComponents repo = (detectMonorepo repo).map (enrichComponent repo))
  ∧ (∀ c, detectMonorepo repo = [] → detectSingleComponent repo = some c →
       detectComponents repo = [enrichComponent repo c])
  ∧ (detectMonorepo repo = [] → detectSingleComponent repo = none →
       detectComponents repo =
         (detectByDirectory repo).map (enrichComponent repo)) := by
  refine ⟨?_, ?_, ?_⟩
  · intro h; simp [detectComponents, h]
  · intro c h1 h2; simp [detectComponents, h1, h2]
  · intro h1 h2; simp [detectComponents, h1, h2]

/-- Witness for C3: with both `services/a` and a root `go.mod` present,
the monorepo strategy decides the result even though the
single-component strategy would also match. -/
theorem detector_strategy_order_witness :
    detectComponents repoC3 =
      (detectMonorepo repoC3).map (enrichComponent repoC3)
  ∧ (detectSingleComponent repoC3).isSome = true :=
  ⟨(detector_strategy_order repoC3).1 (ne_nil_of_isEmpty_false _ rfl), rfl⟩

/-- C7: the single-component strategy commits to exactly one language by
the fixed signature priority order (Go, then Python, Node, Rust, Java,
Gemfile, C#): the first signature found wins regardless of later
matches, and a root matching no signature yields `none`, never an error
or a merge. -/
theorem single_component_priority (repo : Repo) :
    (fileExistsAt repo ["go.mod"] = true →
       (detectSingleComponent repo).map Component.language = some "go")
  ∧ (fileExistsAt repo ["go.mod"] = false →
     (fileExistsAt repo ["setup.py"] || fileExistsAt repo ["pyproject.toml"])
       = true →
       (detectSingleComponent repo).map Component.language = some "python")
  ∧ (fileExistsAt repo ["go.mod"] = false →
     (fileExistsAt repo ["setup.py"] || fileExistsAt repo ["pyproject.toml"])
       = false →
     fileExistsAt repo ["package.json"] = true →
       (detectSingleComponent repo).map Component.language = some "javascript")
  ∧ (fileExistsAt repo ["go.mod"] = false →
     (fileExistsAt repo ["setup.py"] || fileExistsAt repo ["pyproject.toml"])
       = false →
     fileExistsAt repo ["package.json"] = false →
     fileExistsAt repo ["Cargo.toml"] = true →
       (detectSingleComponent repo).map Component.language = some "rust")
  ∧ (fileExistsAt repo ["go.mod"] = false →
     (fileExistsAt repo ["setup.py"] || fileExistsAt repo ["pyproject.toml"])
       = false →
     fileExistsAt repo ["package.json"] = false →
     fileExistsAt repo ["Cargo.toml"] = false →
     (fileExistsAt repo ["pom.xml"] || fileExistsAt repo ["build.gradle"] ||
        fileExistsAt repo ["build.gradle.kts"]) = true →
       (detectSingleComponent repo).map Component.language = some "java")
  ∧ (fileExistsAt repo ["go.mod"] = false →
     (fileExistsAt repo ["setup.py"] || fileExistsAt repo ["pyproject.toml"])
       = false →
     fileExistsAt repo ["package.json"] = false →
     fileExistsAt repo ["Cargo.toml"] = false →
     (fileExistsAt repo ["pom.xml"] || fileExistsAt repo ["build.gradle"] ||
        fileExistsAt repo ["build.gradle.kts"]) = false →
     fileExistsAt repo ["Gemfile"] = true →
       (detectSingleComponent repo).map Component.language = some "ruby")
  ∧ (fileExistsAt repo ["go.mod"] = false →
     (fileExistsAt repo ["setup.py"] || fileExistsAt repo ["pyproject.toml"])
       = false →
     fileExistsAt repo ["package.json"] = false →
     fileExistsAt repo ["Cargo.toml"] = false →
     (fileExistsAt repo ["pom.xml"] || fileExistsAt repo ["build.gradle"] ||
        fileExistsAt repo ["build.gradle.kts"]) = false →
     fileExistsAt repo ["Gemfile"] = false →
     (dirHasFile repo [] "*.csproj" || fileExistsAt repo ["*.sln"]) = true →
       (detectSingleComponent repo).map Component.language = some "csharp")
  ∧ (fileExistsAt repo ["go.mod"] = false →
     (fileExistsAt repo ["setup.py"] || fileExistsAt repo ["pyproject.toml"])
       = false →
     fileExistsAt repo ["package.json"] = false →
     fileExistsAt repo ["Cargo.toml"] = false →
     (fileExistsAt repo ["pom.xml"] || fileExistsAt repo ["build.gradle"] ||
        fileExistsAt repo ["build.gradle.kts"]) = false →
     fileExistsAt repo ["Gemfile"] = false →
     (dirHasFile repo [] "*.csproj" || fileExistsAt repo ["*.sln"]) = false →
       detectSingleComponent repo = none) := by
  refine ⟨?_, ?_, ?_, ?_, ?_, ?_, ?_, ?_⟩ <;> intros <;>
    simp [detectSingleComponent, *]

/-- Witness for C7: a root holding `go.mod`, `package.json` and
`Gemfile` at once resolves deterministically to Go. -/
theorem single_component_priority_witness :
    (detectSingleComponent repoC7).map Component.language = some "go"
  ∧ fileExistsAt repoC7 ["package.json"] = true
  ∧ fileExistsAt repoC7 ["Gemfile"] = true :=
  ⟨(single_component_priority repoC7).1 rfl, rfl, rfl⟩

theorem listIsPre_append [DecidableEq α] (p r : List α) :
    listIsPre p (p ++ r) = true := by
  induction p with
  | nil => rfl
  | cons a rest ih => simp [listIsPre, ih]

theorem listIsPre_exists [DecidableEq α] :
    ∀ (p f : List α), listIsPre p f = true → ∃ r, f = p ++ r := by
  intro p
  induction p with
  | nil => intro f _; exact ⟨f, rfl⟩
  | cons a rest ih =>
    intro f h
    cases f with
    | nil => simp [listIsPre] at h
    | cons b bs =>
      by_cases hab : a = b
      · subst hab
        simp only [listIsPre, if_pos rfl] at h
        obtain ⟨r, hr⟩ := ih bs h
        exact ⟨r, by rw [hr]; rfl⟩
      · simp [listIsPre, hab] at h

theorem toList_asString (l : List Char) : (l.asString).toList = l := rfl

theorem renderSegs_append :
    ∀ (p r : List String), p ≠ [] → r ≠ [] →
      renderSegs (p ++ r) = renderSegs p ++ '/' :: renderSegs r := by
  intro p
  induction p with
  | nil => intro r hp _; cases hp rfl
  | cons a rest ih =>
    intro r hp hr
    cases rest with
    | nil =>
      cases r with
      | nil => cases hr rfl
      | cons b bs => simp [renderSegs]
    | cons c cs =>
      have h2 := ih r (by simp) hr
      simp only [List.cons_append] at h2 ⊢
      simp only [renderSegs] at h2 ⊢
      rw [h2]
      simp

theorem strPrefix_render (p f : List String) (hp : p ≠ [])
    (hpre : listIsPre p f = true) :
    strPrefix (renderPath p) (renderPath f) = true := by
  obtain ⟨r, rfl⟩ := listIsPre_exists p f hpre
  cases r with
  | nil =>
    rw [List.append_nil]
    unfold strPrefix
    have hrefl : ∀ (l : List Char), listIsPre l l = true := by
      intro l
      simpa using listIsPre_append l []
    exact hrefl _
  | cons b bs =>
    have hf : p ++ b :: bs ≠ [] := by simp
    unfold strPrefix renderPath
    rw [if_neg hp, if_neg hf, toList_asString, toList_asString,
        renderSegs_append p (b :: bs) hp (by simp)]
    exact listIsPre_append _ _

theorem enrich_path (repo : Repo) (c : Component) :
    (enrichComponent repo c).path = c.path := by
  simp only [enrichComponent]
  split <;> rfl

theorem enrich_files (repo : Repo) (c : Component) :
    (enrichComponent repo c).files = collectComponentFiles repo c.path := by
  simp only [enrichComponent]
  split <;> rfl

/-- C6 (amended): with the detector rooted at `"."`, every component
whose root path is not `"."` itself has its rendered root path as a
string prefix of every rendered entry in its file list; components the
single-component strategy roots at `"."` do not satisfy the string form
of the invariant, since their file entries are repository-relative. -/
theorem component_files_under_root (repo : Repo) (c : Component)
    (hc : c ∈ detectComponents repo) (hpath : c.path ≠ []) :
    ∀ f ∈ c.files, strPrefix (renderPath c.path) (renderPath f) = true := by
  intro f hf
  simp only [detectComponents] at hc
  obtain ⟨c0, _, rfl⟩ := List.mem_map.mp hc
  rw [enrich_files] at hf
  rw [enrich_path] at hpath ⊢
  have hmem := List.mem_filter.mp hf
  have hw' := hmem.2
  simp only [Bool.and_eq_true] at hw'
  have hw1 := hw'.1
  rw [walkReaches] at hw1
  simp only [Bool.and_eq_true] at hw1
  exact strPrefix_render c0.path f hpath hw1.1

/-- C6 as stated is false: a single-component repository yields one
component rooted at `"."` (the empty segment path) with file entry
`"main.go"`, and `"."` is not a string prefix of `"main.go"`. -/
theorem component_root_prefix_counterexample :
    (detectComponents repoC6).map (fun c => (c.path, c.files)) =
      [([], [["main.go"]])]
  ∧ strPrefix (renderPath []) (renderPath ["main.go"]) = false :=
  ⟨rfl, rfl⟩

/-- Witness for the amended C6: the monorepo component rooted at
`services/a` has its rendered root as a prefix of its sole file entry. -/
theorem component_files_under_root_witness :
    strPrefix (renderPath ((detectComponents repoC6w).headD {}).path)
      (renderPath ["services", "a", "x.go"]) = true := by
  have hval : detectComponents repoC6w = [(detectComponents repoC6w).headD {}] :=
    rfl
  have hmem : (detectComponents repoC6w).headD {} ∈ detectComponents repoC6w := by
    rw [hval]
    exact List.mem_singleton.mpr rfl
  have hpath : ((detectComponents repoC6w).headD {}).path ≠ [] := by
    rw [show ((detectComponents repoC6w).headD {}).path = ["services", "a"]
          from rfl]
    simp
  have hfmem :
      ["services", "a", "x.go"] ∈ ((detectComponents repoC6w).headD {}).files := by
    rw [show ((detectComponents repoC6w).headD {}).files =
          [["services", "a", "x.go"]] from rfl]
    simp
  exact component_files_under_root repoC6w ((detectComponents repoC6w).headD {})
    hmem hpath ["services", "a", "x.go"] hfmem

theorem scanVisit_file_res (excl : List String) (st : ScanState)
    (path : List String) (size : Int) :
    (scanVisit excl st path false size none).2 = WalkRes.ok := by
  unfold scanVisit
  by_cases h : shouldExclude excl path <;> simp [h]

theorem scanVisit_dir_res (excl : List String) (st : ScanState)
    (path : List String) :
    (scanVisit excl st path true 0 none).2 = WalkRes.ok ∨
    (scanVisit excl st path true 0 none).2 = WalkRes.skipDir := by
  unfold scanVisit
  by_cases h : shouldExclude excl path <;> simp [h]

mutual
theorem walkNode_no_fail (excl : List String) (path : List String) (n : FsNode)
    (st : ScanState) (h : n.errFree = true) :
    (walkNode excl path n st).2 = WalkRes.ok ∨
    ((walkNode excl path n st).2 = WalkRes.skipDir ∧ n.skipSwallowed = true) := by
  match n with
  | FsNode.file nm size =>
    rw [walkNode]
    exact Or.inl (scanVisit_file_res excl st path size)
  | FsNode.errEntry nm msg =>
    rw [FsNode.errFree] at h
    exact absurd h (by simp)
  | FsNode.dir nm children =>
    rw [FsNode.errFree] at h
    rw [walkNode]
    rcases hv : scanVisit excl st path true 0 none with ⟨st1, r⟩
    rcases scanVisit_dir_res excl st path with hr | hr <;> rw [hv] at hr
    · have hr' : r = WalkRes.ok := hr
      subst hr'
      exact Or.inl (walkChildren_no_fail excl path children st1 h)
    · have hr' : r = WalkRes.skipDir := hr
      subst hr'
      exact Or.inr ⟨rfl, rfl⟩

theorem walkChildren_no_fail (excl : List String) (dirPath : List String)
    (cs : List FsNode) (st : ScanState) (h : errFreeList cs = true) :
    (walkChildren excl dirPath cs st).2 = WalkRes.ok := by
  match cs with
  | [] =>
    rw [walkChildren]
  | c :: rest =>
    rw [errFreeList] at h
    simp only [Bool.and_eq_true] at h
    rw [walkChildren]
    rcases hw : walkNode excl (dirPath ++ [c.nodeName]) c st with ⟨st1, r⟩
    rcases walkNode_no_fail excl (dirPath ++ [c.nodeName]) c st h.1 with
      hr | ⟨hr, hsw⟩ <;> rw [hw] at hr
    · have hr' : r = WalkRes.ok := hr
      subst hr'
      exact walkChildren_no_fail excl dirPath rest st1 h.2
    · have hr' : r = WalkRes.skipDir := hr
      subst hr'
      rw [hsw]
      simp only [if_true]
      exact walkChildren_no_fail excl dirPath rest st1 h.2
end

theorem walkChildren_err_aborts (excl : List String) :
    ∀ (pre : List FsNode) (dirPath : List String) (post : List FsNode)
      (st : ScanState) (ename msg : String), errFreeList pre = true →
      (walkChildren excl dirPath
        (pre ++ FsNode.errEntry ename msg :: post) st).2 = WalkRes.fail msg := by
  intro pre
  induction pre with
  | nil =>
    intro dirPath post st ename msg _
    simp [walkChildren, walkNode, scanVisit]
  | cons c rest ih =>
    intro dirPath post st ename msg h
    rw [errFreeList] at h
    simp only [Bool.and_eq_true] at h
    rw [List.cons_append, walkChildren]
    rcases hw : walkNode excl (dirPath ++ [c.nodeName]) c st with ⟨st1, r⟩
    rcases walkNode_no_fail excl (dirPath ++ [c.nodeName]) c st h.1 with
      hr | ⟨hr, hsw⟩ <;> rw [hw] at hr
    · have hr' : r = WalkRes.ok := hr
      subst hr'
      exact ih dirPath post st1 ename msg h.2
    · have hr' : r = WalkRes.skipDir := hr
      subst hr'
      rw [hsw]
      simp only [if_true]
      exact ih dirPath post st1 ename msg h.2

/-- C5 as stated is false: an unreadable entry sitting between two
readable files aborts the whole scan with an error instead of being
swallowed and skipped. -/
theorem scan_entry_error_aborts :
    scanRepo [] c5tree =
      Except.error "failed to scan repository: permission denied" := rfl

/-- C5 (amended): walk errors are not swallowed — an entry whose `lstat`
fails among the root's children aborts the scan, which returns that
error wrapped, exactly as a root that cannot be opened does; a scan of
an error-free tree runs to completion for any exclusion patterns. -/
theorem scan_error_propagation :
    (∀ (rootName ename msg : String) (pre post : List FsNode),
       errFreeList pre = true →
       scanRepo []
           (FsNode.dir rootName (pre ++ FsNode.errEntry ename msg :: post)) =
         Except.error ("failed to scan repository: " ++ msg))
  ∧ (∀ (rootName msg : String),
       scanRepo [] (FsNode.errEntry rootName msg) =
         Except.error ("failed to scan repository: " ++ msg))
  ∧ (∀ (excl : List String) (t : FsNode), t.errFree = true →
       ∃ st, scanRepo excl t = Except.ok st) := by
  refine ⟨?_, ?_, ?_⟩
  · intro rootName ename msg pre post hpre
    have hroot : scanVisit [] { files := [], languages := [], totalFiles := 0 }
        [] true 0 none =
        ({ files := [], languages := [], totalFiles := 0 }, WalkRes.ok) := rfl
    rcases hwc : walkChildren [] [] (pre ++ FsNode.errEntry ename msg :: post)
        { files := [], languages := [], totalFiles := 0 } with ⟨stx, r⟩
    have h2 := walkChildren_err_aborts [] pre [] post
      { files := [], languages := [], totalFiles := 0 } ename msg hpre
    rw [hwc] at h2
    have hr : r = WalkRes.fail msg := h2
    subst hr
    simp [scanRepo, walkNode, hroot, hwc]
  · intro rootName msg
    rfl
  · intro excl t ht
    rcases hw : walkNode excl [] t { files := [], languages := [], totalFiles := 0 }
      with ⟨st, r⟩
    rcases walkNode_no_fail excl [] t
        { files := [], languages := [], totalFiles := 0 } ht with hr | ⟨hr, _⟩ <;>
      rw [hw] at hr
    · have hr' : r = WalkRes.ok := hr
      subst hr'
      exact ⟨st, by simp [scanRepo, hw]⟩
    · have hr' : r = WalkRes.skipDir := hr
      subst hr'
      exact ⟨st, by simp [scanRepo, hw]⟩

/-- Witness for the amended C5: the error entry after a readable file
aborts with the wrapped message, an unreadable root aborts, and an
error-free tree scans to completion under a caller-supplied exclusion
pattern. -/
theorem scan_error_propagation_witness :
    scanRepo [] (FsNode.dir "r" ([FsNode.file "a.go" 1] ++
        FsNode.errEntry "x" "permission denied" :: [])) =
      Except.error ("failed to scan repository: " ++ "permission denied")
  ∧ scanRepo [] (FsNode.errEntry "r" "no such file") =
      Except.error ("failed to scan repository: " ++ "no such file")
  ∧ ∃ st, scanRepo ["x"] c5okTree = Except.ok st :=
  ⟨scan_error_propagation.1 "r" "x" "permission denied"
      [FsNode.file "a.go" 1] [] rfl,
   scan_error_propagation.2.1 "r" "no such file",
   scan_error_propagation.2.2 ["x"] c5okTree rfl⟩

end DocBrown
